import Mathlib

/-!
# dockdash: the view-model layer of `view/view.go`

A shallow embedding of the functions of `view/view.go` that turn a registry
snapshot into the two columns of the container list:

* `ContainerSlice.Less`, `mapValuesSorted`       (the newest-first order),
* `createPortsString`                            (the `Ports` column),
* `getNameAndInfoOfContainers`                   (clamp, window, numbering, formatting).

Conventions of the embedding.

* A Go `string` is its sequence of bytes (`GoString`); `cont.ID[:12]` is a byte slice.
* A Go `map` is the list of its entries in the order in which one `range` loop over it
  happens to visit them.  Two lists that are permutations of each other stand for the
  same map visited in two different orders.
* Go `int` is the 64-bit two's complement integer: the result of every subtraction is
  passed through `wrapInt`.
* A run-time panic (`make` with a negative length, a slice bound or an index out of
  range) is the `Except.error` result.
* The pointer fields `Config`, `NetworkSettings` and `HostConfig` of a record are taken to
  be present, as they are in every record decoded from the Docker inspect API.
-/

namespace Dockdash

set_option linter.dupNamespace false

/-! ## Go primitives used by the file -/

/-- A Go string: a sequence of bytes. -/
abbrev GoString := List UInt8

/-- The bytes of an ASCII string literal of the source. -/
def str (s : String) : GoString := s.toList.map (fun c => UInt8.ofNat c.toNat)

/-- Largest value of a 64-bit Go `int`. -/
def maxInt : Int := 9223372036854775807

/-- Smallest value of a 64-bit Go `int`. -/
def minInt : Int := -9223372036854775808

/-- Result of an `int` operation whose mathematical value is `x`: reduced modulo `2^64`
into the range `minInt .. maxInt`. -/
def wrapInt (x : Int) : Int :=
  (x + 9223372036854775808) % 18446744073709551616 - 9223372036854775808

/-- Equality of two results is decidable. -/
instance instDecidableEqExcept {ε α : Type} [DecidableEq ε] [DecidableEq α] :
    DecidableEq (Except ε α)
  | .ok a, .ok b =>
    if h : a = b then isTrue (by rw [h]) else isFalse (fun h1 => h (Except.ok.inj h1))
  | .error a, .error b =>
    if h : a = b then isTrue (by rw [h]) else isFalse (fun h1 => h (Except.error.inj h1))
  | .ok _, .error _ => isFalse (fun h1 => Except.noConfusion h1)
  | .error _, .ok _ => isFalse (fun h1 => Except.noConfusion h1)

/-- The run-time panics the file can raise. -/
inductive Panic where
  | makesliceLen
  | sliceBounds
  | indexRange
deriving DecidableEq, Repr

/-- The part of `time.Time` the file reads: the instant as seconds and nanoseconds, and the
zone, which only `Format` looks at. -/
structure Time where
  sec : Int
  nsec : Int
  loc : Int
deriving DecidableEq, Repr

/-- `time.Time.After`: `t.sec > u.sec || t.sec == u.sec && t.nsec > u.nsec`. -/
def Time.After (t u : Time) : Bool :=
  decide (t.sec > u.sec) || (decide (t.sec = u.sec) && decide (t.nsec > u.nsec))

/-- `time.Time.Before`: `t.sec < u.sec || t.sec == u.sec && t.nsec < u.nsec`. -/
def Time.Before (t u : Time) : Bool :=
  decide (t.sec < u.sec) || (decide (t.sec = u.sec) && decide (t.nsec < u.nsec))

/-- `time.Time.Equal`: the two values are the same instant. -/
def Time.Equal (t u : Time) : Bool :=
  decide (t.sec = u.sec) && decide (t.nsec = u.nsec)

namespace strconv

/-- `strconv.Itoa`: the decimal representation of an `int`. -/
def Itoa (n : Int) : GoString :=
  if n < 0 then str "-" ++ (Nat.toDigits 10 n.natAbs).map (fun c => UInt8.ofNat c.toNat)
  else (Nat.toDigits 10 n.natAbs).map (fun c => UInt8.ofNat c.toNat)

end strconv

namespace strings

/-- `strings.Join(elems, sep)`. -/
def Join : List GoString → GoString → GoString
  | [], _ => []
  | [a], _ => a
  | a :: b :: rest, sep => a ++ sep ++ Join (b :: rest) sep

/-- `strings.TrimLeft(s, cutset)` for a cutset of ASCII bytes: the leading bytes of `s` that
occur in `cutset` are removed. -/
def TrimLeft (s cutset : GoString) : GoString :=
  s.dropWhile (fun b => cutset.contains b)

/-- `strings.TrimRight(s, cutset)` for a cutset of ASCII bytes: the trailing bytes of `s`
that occur in `cutset` are removed. -/
def TrimRight (s cutset : GoString) : GoString :=
  (s.reverse.dropWhile (fun b => cutset.contains b)).reverse

end strings

/-- `make([]string, n)`: `n` empty strings, a panic when `n` is negative. The run time
also refuses a length whose `16 * n` bytes exceed its allocation cap or the memory of the
machine; that limit is not part of the embedding, and the theorems that state a return for
a window longer than the list bound its extra rows by `MaxContainers`. -/
def makeStrings (n : Int) : Except Panic (List GoString) :=
  if 0 ≤ n then .ok (List.replicate n.toNat []) else .error .makesliceLen

/-- The slice expression `s[:n]`. -/
def sliceTo (s : GoString) (n : Nat) : Except Panic GoString :=
  if n ≤ s.length then .ok (s.take n) else .error .sliceBounds

/-- The assignment `xs[i] = v`. -/
def setIndex (xs : List GoString) (i : Int) (v : GoString) : Except Panic (List GoString) :=
  if 0 ≤ i ∧ i < xs.length then .ok (xs.set i.toNat v) else .error .indexRange

/-! ## The records of `go-dockerclient` -/

namespace goDocker

/-- `goDocker.Port`, a string such as `80/tcp`. -/
abbrev Port := GoString

/-- `Port.Port()`: the number of the port, `strings.Split(string(p), "/")[0]`. -/
def Port.Port (p : Port) : GoString := p.takeWhile (fun b => b != UInt8.ofNat 47)

/-- `goDocker.PortBinding`. -/
structure PortBinding where
  HostIP : GoString
  HostPort : GoString
deriving DecidableEq, Repr

/-- The fields of `goDocker.Config` the file reads. -/
structure Config where
  Image : GoString
  Env : List GoString
  Entrypoint : List GoString
deriving DecidableEq, Repr

/-- The field of `goDocker.State` the file reads. -/
structure State where
  StartedAt : Time
deriving DecidableEq, Repr

/-- The field of `goDocker.NetworkSettings` the file reads: the port map, as the list of
its entries in iteration order. -/
structure NetworkSettings where
  Ports : List (Port × List PortBinding)
deriving DecidableEq, Repr

/-- The field of `goDocker.HostConfig` the file reads. -/
structure HostConfig where
  Binds : List GoString
deriving DecidableEq, Repr

/-- The fields of `goDocker.Container` the file reads; `Volumes` is the volume map as the
list of its entries in iteration order. -/
structure Container where
  ID : GoString
  Name : GoString
  Path : GoString
  Args : List GoString
  Config : Config
  State : State
  NetworkSettings : NetworkSettings
  HostConfig : HostConfig
  Volumes : List (GoString × GoString)
deriving DecidableEq, Repr

end goDocker

open goDocker

/-! ## `view/view.go` -/

/-- `type DockerInfoType int`. -/
abbrev DockerInfoType := Int

def ImageInfo : DockerInfoType := 0
def PortInfo : DockerInfoType := 1
def BindInfo : DockerInfoType := 2
def CommandInfo : DockerInfoType := 3
def EntrypointInfo : DockerInfoType := 4
def EnvInfo : DockerInfoType := 5
def VolumesInfo : DockerInfoType := 6
def TimeInfo : DockerInfoType := 7

/-- `const MaxContainers = 1000`. -/
def MaxContainers : Int := 1000

/-- `type ContainerSlice []*goDocker.Container`. -/
abbrev ContainerSlice := List Container

/-- `ContainerSlice.Less`, on the two elements it indexes:
`p[i].State.StartedAt.After(p[j].State.StartedAt)`. -/
def ContainerSlice.Less (a b : Container) : Bool :=
  a.State.StartedAt.After b.State.StartedAt

namespace sort

/-- Inner loop of the standard library's `insertionSort`:
`for j := i; j > a && data.Less(j, j-1); j-- { data.Swap(j, j-1) }`.
The sorted part to the left of `x` is held last element first. -/
def sink (x : Container) : List Container → List Container
  | [] => [x]
  | p :: ps => if ContainerSlice.Less x p then p :: sink x ps else x :: p :: ps

/-- `sort.Sort` on a `ContainerSlice`, as the standard library's `insertionSort`
(`for i := a + 1; i < b; i++ { ... }`), the routine `sort.Sort` runs on short slices. -/
def insertionSort (data : ContainerSlice) : ContainerSlice :=
  (data.foldl (fun sortedRev x => sink x sortedRev) []).reverse

end sort

/-- `mapValuesSorted`: the values of the map, copied in iteration order, then sorted. -/
def mapValuesSorted (mapToSort : List (GoString × Container)) : ContainerSlice :=
  sort.insertionSort (mapToSort.map Prod.snd)

/-- `createPortsString`. -/
def createPortsString (ports : List (Port × List PortBinding)) : GoString :=
  strings.TrimRight
    (ports.foldl
      (fun portsStr entry =>
        entry.2.foldl
          (fun acc extHostPort =>
            acc ++ (Port.Port entry.1 ++ str "->" ++ extHostPort.HostIP ++ str ":"
              ++ extHostPort.HostPort ++ str ","))
          (if entry.2.length = 0 then portsStr ++ (Port.Port entry.1 ++ str "->N/A,")
           else portsStr))
      [])
    (str ",")

/-- The two columns built by `getNameAndInfoOfContainers`, with the arguments of its
`Error.Println("Unhandled info type", infoType)` calls. -/
structure Rows where
  names : List GoString
  info : List GoString
  errorLog : List DockerInfoType
deriving DecidableEq, Repr

/-- The `switch infoType` of `getNameAndInfoOfContainers`: the value assigned to
`info[index-offset]`, or `none` in the `default` case, which assigns nothing.
`rubyDate` is `Format(time.RubyDate)`. -/
def infoValue (rubyDate : Time → GoString) (infoType : DockerInfoType) (cont : Container) :
    Option GoString :=
  if infoType = ImageInfo then some cont.Config.Image
  else if infoType = PortInfo then some (createPortsString cont.NetworkSettings.Ports)
  else if infoType = BindInfo then
    some (strings.TrimRight (strings.Join cont.HostConfig.Binds (str ",")) (str ","))
  else if infoType = CommandInfo then
    some (cont.Path ++ str " " ++ strings.Join cont.Args (str " "))
  else if infoType = EnvInfo then
    some (strings.TrimRight (strings.Join cont.Config.Env (str ",")) (str ","))
  else if infoType = EntrypointInfo then some (strings.Join cont.Config.Entrypoint (str " "))
  else if infoType = VolumesInfo then
    some (strings.TrimRight
      (cont.Volumes.foldl
        (fun volStr v => volStr ++ (v.1 ++ str ":" ++ v.2 ++ str ",")) [])
      (str ","))
  else if infoType = TimeInfo then some (rubyDate cont.State.StartedAt)
  else none

/-- The name row `"(" + strconv.Itoa(containerNumber) + ") " + id12 + " " +
strings.TrimLeft(cont.Name, "/")`. -/
def nameRow (containerNumber : Int) (id12 : GoString) (cont : Container) : GoString :=
  str "(" ++ strconv.Itoa containerNumber ++ str ") " ++ id12 ++ str " "
    ++ strings.TrimLeft cont.Name (str "/")

/-- One pass through the body of `for index, cont := range containersSorted`. -/
def rangeBody (rubyDate : Time → GoString) (numContainers offset : Int)
    (infoType : DockerInfoType) (st : Rows) (index : Nat) (cont : Container) :
    Except Panic Rows :=
  if (index : Int) < offset then .ok st
  else
    match sliceTo cont.ID 12 with
    | .error e => .error e
    | .ok id12 =>
      match setIndex st.names (wrapInt (index - offset))
          (nameRow (wrapInt (numContainers - index)) id12 cont) with
      | .error e => .error e
      | .ok names =>
        match infoValue rubyDate infoType cont with
        | none => .ok ⟨names, st.info, st.errorLog ++ [infoType]⟩
        | some v =>
          match setIndex st.info (wrapInt (index - offset)) v with
          | .error e => .error e
          | .ok info => .ok ⟨names, info, st.errorLog⟩

/-- The loop `for index, cont := range containersSorted`, from position `index` on. -/
def rangeLoop (rubyDate : Time → GoString) (numContainers offset : Int)
    (infoType : DockerInfoType) : List Container → Nat → Rows → Except Panic Rows
  | [], _, st => .ok st
  | cont :: rest, index, st =>
    match rangeBody rubyDate numContainers offset infoType st index cont with
    | .error e => .error e
    | .ok st1 => rangeLoop rubyDate numContainers offset infoType rest (index + 1) st1

/-- The clamp `if offset > numContainers { offset = numContainers - 1 }`. -/
def clampOffset (numContainers offset : Int) : Int :=
  if offset > numContainers then wrapInt (numContainers - 1) else offset

/-- `getNameAndInfoOfContainers`. -/
def getNameAndInfoOfContainers (rubyDate : Time → GoString)
    (containers : List (GoString × Container)) (offset : Int) (infoType : DockerInfoType) :
    Except Panic Rows :=
  let numContainers : Int := containers.length
  let offset := clampOffset numContainers offset
  let numContainersSubset := wrapInt (numContainers - offset)
  match makeStrings numContainersSubset with
  | .error e => .error e
  | .ok names =>
    match makeStrings numContainersSubset with
    | .error e => .error e
    | .ok info =>
      rangeLoop rubyDate numContainers offset infoType (mapValuesSorted containers) 0
        ⟨names, info, []⟩

/-! ## The window in closed form -/

/-- The name rows of a run of records whose first record has rank `index` in the sorted
slice: the record of rank `i` is numbered `numContainers - i`. -/
def nameRowsFrom (numContainers : Int) : Nat → List Container → List GoString
  | _, [] => []
  | index, c :: cs =>
    nameRow (numContainers - index) (c.ID.take 12) c :: nameRowsFrom numContainers (index + 1) cs

/-- The info rows of a run of records: the value of the `switch`, the empty string that
`make` left in place where the `default` case assigns nothing. -/
def infoRows (rubyDate : Time → GoString) (infoType : DockerInfoType)
    (cs : List Container) : List GoString :=
  cs.map (fun c => (infoValue rubyDate infoType c).getD [])

/-- The log lines of a run of records: one per record that reaches the `default` case. -/
def logRows (rubyDate : Time → GoString) (infoType : DockerInfoType)
    (cs : List Container) : List DockerInfoType :=
  (cs.filter (fun c => (infoValue rubyDate infoType c).isNone)).map (fun _ => infoType)

/-- The clamp of the specification: `O` forced into the range `lo .. hi`. -/
def clampWords (O lo hi : Int) : Int := max lo (min O hi)

/-! ## Sample data for the concrete evaluations -/

/-- A stand-in for `Format(time.RubyDate)` in the concrete evaluations: the seconds, in
decimal. -/
def sampleRubyDate (t : Time) : GoString := strconv.Itoa t.sec

/-- A record with the given identifier, name and start second, one port with two
bindings, and one environment assignment that ends in a comma. -/
def sampleRecord (id name : String) (sec : Int) : Container :=
  { ID := str id
    Name := str name
    Path := str "sh"
    Args := [str "-c", str "run"]
    Config := { Image := str "img", Env := [str "A=1", str "L=a,b,"], Entrypoint := [] }
    State := { StartedAt := { sec := sec, nsec := 0, loc := 0 } }
    NetworkSettings :=
      { Ports := [(str "80/tcp", [⟨str "1.2.3.4", str "8080"⟩, ⟨str "0.0.0.0", str "8081"⟩])] }
    HostConfig := { Binds := [str "/a:/b", str "/c:/d"] }
    Volumes := [(str "/data", str "/host/data")] }

/-- A snapshot of one container. -/
def sampleOne : List (GoString × Container) :=
  [(str "0123456789abcdef", sampleRecord "0123456789abcdef" "/web" 5)]

/-- A snapshot of three containers, visited oldest, newest, middle. -/
def sampleThree : List (GoString × Container) :=
  [(str "aaaaaaaaaaaaaaaa", sampleRecord "aaaaaaaaaaaaaaaa" "/my-app" 5),
   (str "bbbbbbbbbbbbbbbb", sampleRecord "bbbbbbbbbbbbbbbb" "/db" 9),
   (str "cccccccccccccccc", sampleRecord "cccccccccccccccc" "/cache" 7)]

/-- A snapshot of one container whose ID has five bytes. -/
def sampleShort : List (GoString × Container) :=
  [(str "short", sampleRecord "short" "/web" 5)]

/-- A snapshot of five containers. -/
def sampleFive : List (GoString × Container) :=
  [(str "cccccccccccccccc", sampleRecord "cccccccccccccccc" "/c" 30),
   (str "aaaaaaaaaaaaaaaa", sampleRecord "aaaaaaaaaaaaaaaa" "/a" 10),
   (str "eeeeeeeeeeeeeeee", sampleRecord "eeeeeeeeeeeeeeee" "/e" 50),
   (str "bbbbbbbbbbbbbbbb", sampleRecord "bbbbbbbbbbbbbbbb" "/b" 20),
   (str "dddddddddddddddd", sampleRecord "dddddddddddddddd" "/d" 40)]

/-- The token `"<port>->HOST_IP:HOST_PORT"` of one binding of a port. -/
def portToken (p : Port) (b : PortBinding) : GoString :=
  Port.Port p ++ str "->" ++ b.HostIP ++ str ":" ++ b.HostPort

/-- The byte `,`. -/
def comma : UInt8 := UInt8.ofNat 44

/-! ## One snapshot read in two iteration orders -/

/-- Two readings of one record: the same fields, with the entries of the port map and of
the volume map each visited in some order. -/
def SameRecord (a b : Container) : Prop :=
  a.ID = b.ID ∧ a.Name = b.Name ∧ a.Path = b.Path ∧ a.Args = b.Args ∧ a.Config = b.Config ∧
  a.State = b.State ∧ a.HostConfig = b.HostConfig ∧
  a.NetworkSettings.Ports.Perm b.NetworkSettings.Ports ∧ a.Volumes.Perm b.Volumes

/-- Two readings of one registry map: the same entries, visited in some order, each record
read as `SameRecord` allows. -/
def SameRegistry (m1 m2 : List (GoString × Container)) : Prop :=
  ∃ m, m1.Perm m ∧ List.Forall₂ (fun e1 e2 => e1.1 = e2.1 ∧ SameRecord e1.2 e2.2) m m2

/-- Two records agree on what the loop body reads of a record. -/
def RowEq (rubyDate : Time → GoString) (k : DockerInfoType) (a b : Container) : Prop :=
  a.ID = b.ID ∧ a.Name = b.Name ∧ a.State = b.State ∧
  infoValue rubyDate k a = infoValue rubyDate k b

/-- A snapshot of two containers started at the same instant. -/
def sampleTie : List (GoString × Container) :=
  [(str "aaaaaaaaaaaaaaaa", sampleRecord "aaaaaaaaaaaaaaaa" "/one" 5),
   (str "bbbbbbbbbbbbbbbb", sampleRecord "bbbbbbbbbbbbbbbb" "/two" 5)]

/-- The snapshot `sampleTie` visited in the other order. -/
def sampleTieSwapped : List (GoString × Container) :=
  [(str "bbbbbbbbbbbbbbbb", sampleRecord "bbbbbbbbbbbbbbbb" "/two" 5),
   (str "aaaaaaaaaaaaaaaa", sampleRecord "aaaaaaaaaaaaaaaa" "/one" 5)]

/-- A snapshot of one container with the two volumes and the two ports given, in the
order given. -/
def sampleMaps (vols : List (GoString × GoString)) (ports : List (Port × List PortBinding)) :
    List (GoString × Container) :=
  [(str "0123456789abcdef",
    { sampleRecord "0123456789abcdef" "/web" 5 with
      Volumes := vols, NetworkSettings := { Ports := ports } })]

/-! ## Arithmetic of `int` -/

theorem wrapInt_eq {x : Int} (h1 : minInt ≤ x) (h2 : x ≤ maxInt) : wrapInt x = x := by
  unfold wrapInt
  unfold minInt at h1
  unfold maxInt at h2
  omega

/-! ## The order of `ContainerSlice.Less` -/

theorem less_iff (a b : Container) :
    ContainerSlice.Less a b = true ↔
      (b.State.StartedAt.sec < a.State.StartedAt.sec ∨
        (a.State.StartedAt.sec = b.State.StartedAt.sec ∧
          b.State.StartedAt.nsec < a.State.StartedAt.nsec)) := by
  simp [ContainerSlice.Less, Time.After]

theorem less_false_iff (a b : Container) :
    ContainerSlice.Less a b = false ↔
      (a.State.StartedAt.sec < b.State.StartedAt.sec ∨
        (a.State.StartedAt.sec = b.State.StartedAt.sec ∧
          a.State.StartedAt.nsec ≤ b.State.StartedAt.nsec)) := by
  rw [← Bool.not_eq_true, less_iff]
  omega

theorem before_iff (t u : Time) :
    t.Before u = true ↔ (t.sec < u.sec ∨ (t.sec = u.sec ∧ t.nsec < u.nsec)) := by
  simp [Time.Before]

theorem equal_iff (t u : Time) : t.Equal u = true ↔ (t.sec = u.sec ∧ t.nsec = u.nsec) := by
  simp [Time.Equal]

/-! ## `sort.insertionSort` returns an ordered permutation -/

theorem sink_perm (x : Container) (l : List Container) : (sort.sink x l).Perm (x :: l) := by
  induction l with
  | nil => simp [sort.sink]
  | cons p ps ih =>
    unfold sort.sink
    split
    · exact (List.Perm.cons p ih).trans (List.Perm.swap x p ps)
    · exact List.Perm.refl _

theorem sink_pairwise (x : Container) (l : List Container)
    (h : l.Pairwise (fun u v => ContainerSlice.Less u v = false)) :
    (sort.sink x l).Pairwise (fun u v => ContainerSlice.Less u v = false) := by
  induction l with
  | nil => simp [sort.sink]
  | cons p ps ih =>
    rw [List.pairwise_cons] at h
    unfold sort.sink
    split
    · rename_i hlt
      rw [List.pairwise_cons]
      refine ⟨?_, ih h.2⟩
      intro y hy
      rcases List.mem_cons.mp ((sink_perm x ps).mem_iff.mp hy) with hy1 | hy1
      · rw [hy1]
        rw [less_iff] at hlt
        rw [less_false_iff]
        omega
      · exact h.1 y hy1
    · rename_i hlt
      rw [Bool.not_eq_true] at hlt
      rw [List.pairwise_cons]
      refine ⟨?_, List.pairwise_cons.mpr h⟩
      intro y hy
      rcases List.mem_cons.mp hy with hy1 | hy1
      · rw [hy1]; exact hlt
      · have := h.1 y hy1
        rw [less_false_iff] at *
        omega

theorem foldl_sink_perm (l acc : List Container) :
    (l.foldl (fun sortedRev x => sort.sink x sortedRev) acc).Perm (l ++ acc) := by
  induction l generalizing acc with
  | nil => simp
  | cons x xs ih =>
    simp only [List.foldl_cons]
    refine (ih _).trans ?_
    refine (List.Perm.append_left xs (sink_perm x acc)).trans ?_
    simp

theorem foldl_sink_pairwise (l acc : List Container)
    (h : acc.Pairwise (fun u v => ContainerSlice.Less u v = false)) :
    (l.foldl (fun sortedRev x => sort.sink x sortedRev) acc).Pairwise
      (fun u v => ContainerSlice.Less u v = false) := by
  induction l generalizing acc with
  | nil => simpa using h
  | cons x xs ih =>
    simp only [List.foldl_cons]
    exact ih _ (sink_pairwise x acc h)

theorem insertionSort_perm (l : List Container) : (sort.insertionSort l).Perm l := by
  unfold sort.insertionSort
  refine (List.reverse_perm _).trans ?_
  simpa using foldl_sink_perm l []

theorem insertionSort_pairwise (l : List Container) :
    (sort.insertionSort l).Pairwise (fun a b => ContainerSlice.Less b a = false) := by
  unfold sort.insertionSort
  rw [List.pairwise_reverse]
  exact foldl_sink_pairwise l [] List.Pairwise.nil

theorem mapValuesSorted_perm (m : List (GoString × Container)) :
    (mapValuesSorted m).Perm (m.map Prod.snd) :=
  insertionSort_perm _

theorem mapValuesSorted_length (m : List (GoString × Container)) :
    (mapValuesSorted m).length = m.length := by
  simpa using (mapValuesSorted_perm m).length_eq

theorem mapValuesSorted_pairwise (m : List (GoString × Container)) :
    (mapValuesSorted m).Pairwise (fun a b => ContainerSlice.Less b a = false) :=
  insertionSort_pairwise _

/-- C1. `mapValuesSorted` returns a permutation of the records of the snapshot (same
multiset, same length) in which, at any two adjacent positions `i`, `i+1`, the `StartedAt`
of element `i` is not before the `StartedAt` of element `i+1`, and is strictly after it
whenever the two are not the same instant. -/
theorem mapValuesSorted_newest_first (m : List (GoString × Container)) :
    (mapValuesSorted m).Perm (m.map Prod.snd) ∧
    (mapValuesSorted m).length = m.length ∧
    ∀ (i : Nat) (a b : Container),
      (mapValuesSorted m)[i]? = some a → (mapValuesSorted m)[i + 1]? = some b →
        a.State.StartedAt.Before b.State.StartedAt = false ∧
        (a.State.StartedAt.Equal b.State.StartedAt = false →
          a.State.StartedAt.After b.State.StartedAt = true) := by
  refine ⟨mapValuesSorted_perm m, mapValuesSorted_length m, ?_⟩
  intro i a b ha hb
  have hp := mapValuesSorted_pairwise m
  rw [List.pairwise_iff_getElem] at hp
  obtain ⟨hi, hai⟩ := List.getElem?_eq_some.mp ha
  obtain ⟨hj, hbj⟩ := List.getElem?_eq_some.mp hb
  have h := hp i (i + 1) hi hj (Nat.lt_succ_self i)
  rw [hai, hbj, less_false_iff] at h
  constructor
  · rw [← Bool.not_eq_true, before_iff]
    omega
  · intro he
    rw [← Bool.not_eq_true, equal_iff] at he
    have := (less_iff a b)
    unfold ContainerSlice.Less at this
    rw [this]
    omega

/-- The three records of `sampleThree`, visited oldest, newest, middle, come out newest,
middle, oldest. -/
theorem mapValuesSorted_newest_first_witness :
    ((mapValuesSorted sampleThree).Perm (sampleThree.map Prod.snd) ∧
      (mapValuesSorted sampleThree).length = sampleThree.length ∧
      ∀ (i : Nat) (a b : Container),
        (mapValuesSorted sampleThree)[i]? = some a →
        (mapValuesSorted sampleThree)[i + 1]? = some b →
          a.State.StartedAt.Before b.State.StartedAt = false ∧
          (a.State.StartedAt.Equal b.State.StartedAt = false →
            a.State.StartedAt.After b.State.StartedAt = true)) ∧
    (mapValuesSorted sampleThree).map (fun r => r.State.StartedAt.sec) = [9, 7, 5] ∧
    mapValuesSorted [] = [] :=
  ⟨mapValuesSorted_newest_first sampleThree, by decide, by decide⟩

/-! ## The loop of `getNameAndInfoOfContainers` -/

theorem rangeLoop_skip (rubyDate : Time → GoString) (N offset : Int) (k : DockerInfoType)
    (rest : List Container) (index : Nat) (st : Rows)
    (h : (index : Int) + rest.length ≤ offset) :
    rangeLoop rubyDate N offset k rest index st = .ok st := by
  induction rest generalizing index with
  | nil => rfl
  | cons c cs ih =>
    simp only [List.length_cons, Nat.cast_add, Nat.cast_one] at h
    have h1 : (index : Int) < offset := by omega
    simp only [rangeLoop, rangeBody, h1, if_true]
    apply ih
    push_cast
    omega

theorem rangeLoop_append (rubyDate : Time → GoString) (N offset : Int) (k : DockerInfoType)
    (xs ys : List Container) (index : Nat) (st : Rows) :
    rangeLoop rubyDate N offset k (xs ++ ys) index st =
      match rangeLoop rubyDate N offset k xs index st with
      | .error e => .error e
      | .ok st1 => rangeLoop rubyDate N offset k ys (index + xs.length) st1 := by
  induction xs generalizing index st with
  | nil => simp [rangeLoop]
  | cons c cs ih =>
    simp only [List.cons_append, rangeLoop, List.length_cons]
    cases hb : rangeBody rubyDate N offset k st index c with
    | error e => rfl
    | ok st1 =>
      simp only [List.append_eq]
      rw [ih]
      have : index + 1 + cs.length = index + (cs.length + 1) := by omega
      rw [this]

theorem set_middle (L : List GoString) (n : Nat) (v : GoString) :
    (L ++ List.replicate (n + 1) []).set L.length v = (L ++ [v]) ++ List.replicate n [] := by
  rw [List.set_append]
  simp [List.replicate_succ]

theorem rangeLoop_write (rubyDate : Time → GoString) (N offset : Int) (k : DockerInfoType)
    (rest : List Container) (index : Nat) (L M : List GoString) (log : List DockerInfoType)
    (hoff : offset ≤ index) (hL : (L.length : Int) = index - offset)
    (hM : M.length = L.length) (hN : (index : Int) + rest.length = N)
    (hmax : N ≤ maxInt) (hsub : N - offset ≤ maxInt)
    (hid : ∀ c ∈ rest, 12 ≤ c.ID.length) :
    rangeLoop rubyDate N offset k rest index
        ⟨L ++ List.replicate rest.length [], M ++ List.replicate rest.length [], log⟩ =
      .ok ⟨L ++ nameRowsFrom N index rest, M ++ infoRows rubyDate k rest,
        log ++ logRows rubyDate k rest⟩ := by
  induction rest generalizing index L M log with
  | nil => simp [rangeLoop, nameRowsFrom, infoRows, logRows]
  | cons c cs ih =>
    simp only [List.length_cons, Nat.cast_add, Nat.cast_one] at hN
    have h1 : ¬ ((index : Int) < offset) := by omega
    have h2 : 12 ≤ c.ID.length := hid c (List.mem_cons_self _ _)
    have hw1 : wrapInt ((index : Int) - offset) = L.length := by
      rw [hL]
      apply wrapInt_eq
      · unfold minInt; omega
      · omega
    have hw2 : wrapInt (N - (index : Int)) = N - index := by
      apply wrapInt_eq
      · unfold minInt; omega
      · omega
    have hs1 : setIndex (L ++ List.replicate (cs.length + 1) []) (L.length : Int)
        (nameRow (N - index) (c.ID.take 12) c) =
        .ok ((L ++ [nameRow (N - index) (c.ID.take 12) c]) ++ List.replicate cs.length []) := by
      unfold setIndex
      rw [if_pos]
      · simp only [Int.toNat_ofNat]
        rw [set_middle]
      · simp
    have hs2 : ∀ v, setIndex (M ++ List.replicate (cs.length + 1) []) (L.length : Int) v =
        .ok ((M ++ [v]) ++ List.replicate cs.length []) := by
      intro v
      unfold setIndex
      rw [if_pos]
      · simp only [Int.toNat_ofNat]
        rw [← hM, set_middle]
      · simp [hM]
    have hidcs : ∀ c ∈ cs, 12 ≤ c.ID.length := fun c hc => hid c (List.mem_cons_of_mem _ hc)
    simp only [rangeLoop, rangeBody, h1, if_false, sliceTo, h2, if_true, hw1, hw2,
      List.length_cons, hs1]
    cases hv : infoValue rubyDate k c with
    | none =>
      simp only []
      have hpad : M ++ List.replicate (cs.length + 1) ([] : GoString) =
          (M ++ [[]]) ++ List.replicate cs.length [] := by
        simp [List.replicate_succ]
      rw [hpad, ih (index + 1) (L ++ [nameRow (N - index) (c.ID.take 12) c]) (M ++ [[]])
        (log ++ [k])]
      · simp [nameRowsFrom, infoRows, logRows, hv]
      · push_cast; omega
      · simp; omega
      · simp [hM]
      · push_cast; omega
      · exact hidcs
    | some v =>
      simp only [hs2]
      rw [ih (index + 1) (L ++ [nameRow (N - index) (c.ID.take 12) c]) (M ++ [v]) log]
      · simp [nameRowsFrom, infoRows, logRows, hv]
      · push_cast; omega
      · simp; omega
      · simp [hM]
      · push_cast; omega
      · exact hidcs

/-! ## `getNameAndInfoOfContainers` in closed form -/

theorem clampOffset_le (N o : Int) (h0 : 0 ≤ N) (hmax : N ≤ maxInt) : clampOffset N o ≤ N := by
  unfold clampOffset
  split
  · rw [wrapInt_eq]
    · omega
    · unfold minInt; omega
    · omega
  · omega

theorem clampOffset_sub_le (N o : Int) (h0 : 0 ≤ N) (hmax : N ≤ maxInt)
    (hsub : N - o ≤ maxInt) : N - clampOffset N o ≤ maxInt := by
  unfold clampOffset
  split
  · rw [wrapInt_eq]
    · unfold maxInt; omega
    · unfold minInt; omega
    · omega
  · omega

theorem getNameAndInfo_closed (rubyDate : Time → GoString) (m : List (GoString × Container))
    (o : Int) (k : DockerInfoType) (hmax : (m.length : Int) ≤ maxInt)
    (hsub : (m.length : Int) - o ≤ maxInt)
    (hid : ∀ c ∈ (mapValuesSorted m).drop (clampOffset m.length o).toNat, 12 ≤ c.ID.length) :
    getNameAndInfoOfContainers rubyDate m o k =
      .ok ⟨List.replicate (-(clampOffset m.length o)).toNat [] ++
            nameRowsFrom m.length (clampOffset m.length o).toNat
              ((mapValuesSorted m).drop (clampOffset m.length o).toNat),
          List.replicate (-(clampOffset m.length o)).toNat [] ++
            infoRows rubyDate k ((mapValuesSorted m).drop (clampOffset m.length o).toNat),
          logRows rubyDate k ((mapValuesSorted m).drop (clampOffset m.length o).toNat)⟩ := by
  have h0 : (0 : Int) ≤ m.length := Int.ofNat_nonneg _
  have hle := clampOffset_le m.length o h0 hmax
  have hsub1 := clampOffset_sub_le m.length o h0 hmax hsub
  have hlen := mapValuesSorted_length m
  generalize hc : clampOffset (m.length : Int) o = c at *
  have hw : wrapInt ((m.length : Int) - c) = m.length - c := by
    apply wrapInt_eq
    · unfold minInt; omega
    · exact hsub1
  have hdl : ((mapValuesSorted m).drop c.toNat).length = m.length - c.toNat := by
    rw [List.length_drop, hlen]
  have hrep : List.replicate ((m.length : Int) - c).toNat ([] : GoString) =
      List.replicate (-c).toNat [] ++
        List.replicate ((mapValuesSorted m).drop c.toNat).length [] := by
    rw [List.append_replicate_replicate]
    congr 1
    rw [hdl]
    omega
  unfold getNameAndInfoOfContainers
  simp only [hc, hw, makeStrings]
  rw [if_pos (by omega)]
  simp only [hrep]
  have hwrite := rangeLoop_write rubyDate m.length c k ((mapValuesSorted m).drop c.toNat)
    c.toNat (List.replicate (-c).toNat []) (List.replicate (-c).toNat []) [] (by omega)
    (by simp; omega) rfl (by rw [hdl]; omega) hmax hsub1 hid
  by_cases hneg : c < 0
  · have hz : c.toNat = 0 := by omega
    rw [hz] at hwrite ⊢
    simpa using hwrite
  · conv_lhs => rw [← List.take_append_drop c.toNat (mapValuesSorted m)]
    have hidx : 0 + (List.take c.toNat (mapValuesSorted m)).length = c.toNat := by
      rw [List.length_take, hlen]; omega
    rw [rangeLoop_append, rangeLoop_skip]
    · simp only []
      rw [hidx]
      simpa using hwrite
    · rw [List.length_take, hlen]
      push_cast
      omega

/-! ## Lengths and rows of the window -/

theorem nameRowsFrom_length (N : Int) (i : Nat) (cs : List Container) :
    (nameRowsFrom N i cs).length = cs.length := by
  induction cs generalizing i with
  | nil => rfl
  | cons c cs ih => simp [nameRowsFrom, ih]

theorem infoRows_length (rubyDate : Time → GoString) (k : DockerInfoType)
    (cs : List Container) : (infoRows rubyDate k cs).length = cs.length := by
  simp [infoRows]

theorem nameRowsFrom_getElem? (N : Int) (i j : Nat) (cs : List Container) :
    (nameRowsFrom N i cs)[j]? =
      cs[j]?.map (fun r => nameRow (N - ((i + j : Nat) : Int)) (r.ID.take 12) r) := by
  induction cs generalizing i j with
  | nil => simp [nameRowsFrom]
  | cons c cs ih =>
    cases j with
    | zero => simp [nameRowsFrom]
    | succ j =>
      simp only [nameRowsFrom, List.getElem?_cons_succ]
      rw [ih]
      have : i + 1 + j = i + (j + 1) := by omega
      rw [this]

theorem ids_of_drop (m : List (GoString × Container)) (n : Nat)
    (hid : ∀ e ∈ m, 12 ≤ e.2.ID.length) :
    ∀ c ∈ (mapValuesSorted m).drop n, 12 ≤ c.ID.length := by
  intro c hc
  have h1 : c ∈ m.map Prod.snd := (mapValuesSorted_perm m).mem_iff.mp (List.mem_of_mem_drop hc)
  obtain ⟨e, he, hec⟩ := List.mem_map.mp h1
  rw [← hec]
  exact hid e he

theorem clampOffset_of_le (N o : Int) (h : o ≤ N) : clampOffset N o = o := by
  unfold clampOffset
  rw [if_neg (by omega)]

theorem clampOffset_of_gt (N o : Int) (h : N < o) (h0 : 0 ≤ N) (hmax : N ≤ maxInt) :
    clampOffset N o = N - 1 := by
  unfold clampOffset
  rw [if_pos (by omega)]
  apply wrapInt_eq
  · unfold minInt; omega
  · omega

/-! ## C2: the length of the window -/

/-- C2, as the code has it. For a non-empty snapshot of `N` containers whose IDs have at
least 12 bytes and an offset `O` other than `N` that is not below `-MaxContainers` (with
`N - O` an `int`), the call returns and both columns have the same length:
`N - clamp(O, 0, N-1)` for `0 ≤ O` (one row for `O > N`), and `N - O` for a negative `O`. -/
theorem window_length (rubyDate : Time → GoString) (m : List (GoString × Container))
    (O : Int) (k : DockerInfoType) (hne : m ≠ []) (hmax : (m.length : Int) ≤ maxInt)
    (hid : ∀ e ∈ m, 12 ≤ e.2.ID.length) (hON : O ≠ m.length)
    (_hlow : -MaxContainers ≤ O) (hsub : (m.length : Int) - O ≤ maxInt) :
    ∃ rows, getNameAndInfoOfContainers rubyDate m O k = .ok rows ∧
      rows.info.length = rows.names.length ∧
      (0 ≤ O → (rows.names.length : Int) = m.length - clampWords O 0 (m.length - 1)) ∧
      (O > m.length → rows.names.length = 1) ∧
      (O < 0 → (rows.names.length : Int) = m.length - O) := by
  have hpos : 0 < m.length := List.length_pos.mpr hne
  have hcl := getNameAndInfo_closed rubyDate m O k hmax hsub (ids_of_drop m _ hid)
  have hlen := mapValuesSorted_length m
  refine ⟨_, hcl, ?_, ?_, ?_, ?_⟩
  · simp [nameRowsFrom_length, infoRows_length]
  · intro h0
    simp only [List.length_append, List.length_replicate, nameRowsFrom_length,
      List.length_drop, hlen]
    unfold clampWords
    by_cases hgt : (m.length : Int) < O
    · rw [clampOffset_of_gt _ _ hgt (by omega) hmax]
      omega
    · rw [clampOffset_of_le _ _ (by omega)]
      omega
  · intro hgt
    simp only [List.length_append, List.length_replicate, nameRowsFrom_length,
      List.length_drop, hlen]
    rw [clampOffset_of_gt _ _ hgt (by omega) hmax]
    omega
  · intro hneg
    simp only [List.length_append, List.length_replicate, nameRowsFrom_length,
      List.length_drop, hlen]
    rw [clampOffset_of_le _ _ (by omega)]
    omega

theorem window_length_witness :
    ∃ rows, getNameAndInfoOfContainers sampleRubyDate sampleThree 100 PortInfo = .ok rows ∧
      rows.info.length = rows.names.length ∧
      ((0 : Int) ≤ 100 →
        (rows.names.length : Int) =
          sampleThree.length - clampWords 100 0 (sampleThree.length - 1)) ∧
      ((100 : Int) > sampleThree.length → rows.names.length = 1) ∧
      ((100 : Int) < 0 → (rows.names.length : Int) = sampleThree.length - 100) :=
  window_length sampleRubyDate sampleThree 100 PortInfo (by decide) (by decide) (by decide)
    (by decide) (by decide) (by decide)

/-- C2 fails as stated. With one container, offset `-1` gives two rows where
`N - clamp(O, 0, N-1)` is one, and offset `1 = N` gives no row where it is one. -/
theorem window_length_counterexample :
    (∃ rows, getNameAndInfoOfContainers sampleRubyDate sampleOne (-1) ImageInfo = .ok rows ∧
      rows.names.length = 2 ∧
      (rows.names.length : Int) ≠ sampleOne.length - clampWords (-1) 0 (sampleOne.length - 1)) ∧
    (∃ rows, getNameAndInfoOfContainers sampleRubyDate sampleOne 1 ImageInfo = .ok rows ∧
      rows.names.length = 0 ∧
      (rows.names.length : Int) ≠ sampleOne.length - clampWords 1 0 (sampleOne.length - 1)) :=
  ⟨⟨⟨[[], str "(1) 0123456789ab web"], [[], str "img"], []⟩, by decide, by decide, by decide⟩,
   ⟨⟨[], [], []⟩, by decide, by decide, by decide⟩⟩

/-! ## C3: the empty snapshot -/

/-- C3, the code at the failing inputs. For the empty snapshot and every positive offset the
clamp sets the offset to `-1`, and the window is one row holding the empty string in both
columns, not the empty window. -/
theorem empty_registry_positive_offset (rubyDate : Time → GoString) (O : Int)
    (k : DockerInfoType) (hO : 0 < O) :
    getNameAndInfoOfContainers rubyDate [] O k = .ok ⟨[[]], [[]], []⟩ := by
  have h := getNameAndInfo_closed rubyDate [] O k (by decide) (by simp; unfold maxInt; omega)
    (by simp [mapValuesSorted, sort.insertionSort])
  rw [h]
  have hc : clampOffset (([] : List (GoString × Container)).length : Int) O = -1 := by
    rw [clampOffset_of_gt _ _ (by simpa using hO) (by simp) (by decide)]
    rfl
  rw [hc]
  rfl

theorem empty_registry_positive_offset_witness :
    (0 : Int) < 1 ∧
      getNameAndInfoOfContainers sampleRubyDate [] 1 ImageInfo = .ok ⟨[[]], [[]], []⟩ :=
  ⟨by decide, empty_registry_positive_offset sampleRubyDate 1 ImageInfo (by decide)⟩

/-! ## C4: the name rows -/

/-- C4. For a snapshot of `N` containers whose IDs have at least 12 bytes, every info kind
and every offset `c` with `0 ≤ c ≤ N`, the call returns `N - c` name rows, and row `j`
describes the record `r` of rank `c + j` in the newest-first order:
`"(" + decimal(N - (c+j)) + ") " + r.ID[:12] + " " + r.Name` without its leading `/`. -/
theorem name_rows (rubyDate : Time → GoString) (m : List (GoString × Container))
    (c : Int) (k : DockerInfoType) (hmax : (m.length : Int) ≤ maxInt)
    (hid : ∀ e ∈ m, 12 ≤ e.2.ID.length) (hc0 : 0 ≤ c) (hcN : c ≤ m.length) :
    ∃ rows, getNameAndInfoOfContainers rubyDate m c k = .ok rows ∧
      (rows.names.length : Int) = m.length - c ∧
      ∀ (j : Nat) (r : Container), (mapValuesSorted m)[c.toNat + j]? = some r →
        rows.names[j]? =
          some (str "(" ++ strconv.Itoa (m.length - (c + j)) ++ str ") " ++ r.ID.take 12
            ++ str " " ++ strings.TrimLeft r.Name (str "/")) := by
  have hcl := getNameAndInfo_closed rubyDate m c k hmax (by omega) (ids_of_drop m _ hid)
  have hlen := mapValuesSorted_length m
  rw [clampOffset_of_le _ _ hcN] at hcl
  have hz : (-c).toNat = 0 := by omega
  rw [hz] at hcl
  simp only [List.replicate_zero, List.nil_append] at hcl
  refine ⟨_, hcl, ?_, ?_⟩
  · simp only [nameRowsFrom_length, List.length_drop, hlen]
    omega
  · intro j r hr
    simp only [nameRowsFrom_getElem?, List.getElem?_drop, hr, Option.map_some']
    unfold nameRow
    have : ((c.toNat + j : Nat) : Int) = c + j := by
      push_cast
      omega
    rw [this]

/-- Three containers at offset 0 are numbered 3, 2, 1 from newest to oldest, and the
record named `/my-app` is shown as `my-app`. -/
theorem name_rows_witness :
    (∃ rows, getNameAndInfoOfContainers sampleRubyDate sampleThree 0 ImageInfo = .ok rows ∧
      (rows.names.length : Int) = sampleThree.length - 0 ∧
      ∀ (j : Nat) (r : Container), (mapValuesSorted sampleThree)[(0 : Int).toNat + j]? = some r →
        rows.names[j]? =
          some (str "(" ++ strconv.Itoa (sampleThree.length - (0 + j)) ++ str ") "
            ++ r.ID.take 12 ++ str " " ++ strings.TrimLeft r.Name (str "/"))) ∧
    getNameAndInfoOfContainers sampleRubyDate sampleThree 0 ImageInfo =
      .ok ⟨[str "(3) bbbbbbbbbbbb db", str "(2) cccccccccccc cache",
            str "(1) aaaaaaaaaaaa my-app"], [str "img", str "img", str "img"], []⟩ :=
  ⟨name_rows sampleRubyDate sampleThree 0 ImageInfo (by decide) (by decide) (by decide)
    (by decide), by decide⟩

/-! ## C5: an offset beyond the end -/

theorem equal_symm (t u : Time) (h : t.Equal u = false) : u.Equal t = false := by
  rw [← Bool.not_eq_true, equal_iff] at *
  omega

theorem mapValuesSorted_distinct (m : List (GoString × Container))
    (hdist : (m.map Prod.snd).Pairwise
      (fun a b => a.State.StartedAt.Equal b.State.StartedAt = false)) :
    (mapValuesSorted m).Pairwise
      (fun a b => a.State.StartedAt.Equal b.State.StartedAt = false) :=
  ((mapValuesSorted_perm m).pairwise_iff (fun h => equal_symm _ _ h)).mpr hdist

theorem mapValuesSorted_drop_last (m : List (GoString × Container)) (hne : m ≠ [])
    (hdist : (m.map Prod.snd).Pairwise
      (fun a b => a.State.StartedAt.Equal b.State.StartedAt = false))
    (r : Container) (hr : r ∈ m.map Prod.snd)
    (hold : ∀ r' ∈ m.map Prod.snd, r'.State.StartedAt.Before r.State.StartedAt = false) :
    (mapValuesSorted m).drop (m.length - 1) = [r] := by
  have hlen := mapValuesSorted_length m
  have hS : mapValuesSorted m ≠ [] := by
    intro h
    rw [h] at hlen
    exact hne (List.length_eq_zero.mp hlen.symm)
  have hperm := mapValuesSorted_perm m
  have hsorted := mapValuesSorted_pairwise m
  have hd := mapValuesSorted_distinct m hdist
  have hrS : r ∈ mapValuesSorted m := hperm.mem_iff.mpr hr
  have hxm : (mapValuesSorted m).getLast hS ∈ m.map Prod.snd :=
    hperm.mem_iff.mp (List.getLast_mem hS)
  have hsplit := List.dropLast_append_getLast hS
  generalize (mapValuesSorted m).getLast hS = x at hxm hsplit
  generalize (mapValuesSorted m).dropLast = init at hsplit
  rw [← hlen, ← hsplit]
  rw [← hsplit] at hrS hsorted hd
  have hx : x = r := by
    rcases List.mem_append.mp hrS with hin | hin
    · exfalso
      have h1 := (List.pairwise_append.mp hsorted).2.2 r hin x (List.mem_singleton_self x)
      have h2 := (List.pairwise_append.mp hd).2.2 r hin x (List.mem_singleton_self x)
      have h3 := hold x hxm
      rw [less_false_iff] at h1
      rw [← Bool.not_eq_true, equal_iff] at h2
      rw [← Bool.not_eq_true, before_iff] at h3
      omega
    · exact (List.mem_singleton.mp hin).symm
  rw [hx]
  simp

/-- C5, as the code has it. For a non-empty snapshot of `N` containers with pairwise
distinct start times and every info kind, every offset `O > N` gives the result of offset
`N - 1`; when the ID of the oldest container has the 12 bytes that `ID[:12]` takes, that
result is the window of one row that shows the oldest container, numbered `(1)`. -/
theorem offset_beyond_end (rubyDate : Time → GoString) (m : List (GoString × Container))
    (O : Int) (k : DockerInfoType) (hne : m ≠ []) (hmax : (m.length : Int) ≤ maxInt)
    (hdist : (m.map Prod.snd).Pairwise
      (fun a b => a.State.StartedAt.Equal b.State.StartedAt = false))
    (hO : (m.length : Int) < O) :
    getNameAndInfoOfContainers rubyDate m O k =
      getNameAndInfoOfContainers rubyDate m (m.length - 1) k ∧
    ∀ r ∈ m.map Prod.snd,
      (∀ r' ∈ m.map Prod.snd, r'.State.StartedAt.Before r.State.StartedAt = false) →
      12 ≤ r.ID.length →
      getNameAndInfoOfContainers rubyDate m O k =
        .ok ⟨[str "(1) " ++ r.ID.take 12 ++ str " " ++ strings.TrimLeft r.Name (str "/")],
          [(infoValue rubyDate k r).getD []], logRows rubyDate k [r]⟩ := by
  have h0 : (0 : Int) ≤ m.length := Int.ofNat_nonneg _
  have hpos : 0 < m.length := List.length_pos.mpr hne
  have hc1 := clampOffset_of_gt _ _ hO h0 hmax
  have hc2 : clampOffset (m.length : Int) (m.length - 1) = m.length - 1 :=
    clampOffset_of_le _ _ (by omega)
  constructor
  · unfold getNameAndInfoOfContainers
    simp only [hc1, hc2]
  · intro r hr hold hid
    have hdrop := mapValuesSorted_drop_last m hne hdist r hr hold
    have htn : ((m.length : Int) - 1).toNat = m.length - 1 := by omega
    have hcl := getNameAndInfo_closed rubyDate m O k hmax (by unfold maxInt; omega)
      (by
        rw [hc1, htn, hdrop]
        intro c hc
        rw [List.mem_singleton.mp hc]
        exact hid)
    rw [hcl, hc1, htn, hdrop]
    have hz : (-((m.length : Int) - 1)).toNat = 0 := by omega
    have hn : (m.length : Int) - ((m.length - 1 : Nat) : Int) = 1 := by omega
    rw [hz]
    simp only [List.replicate_zero, List.nil_append, nameRowsFrom, infoRows, List.map_cons,
      List.map_nil, hn]
    rfl

/-- Five containers: offset 100 gives the window of offset 4, the one row of the oldest
container. -/
theorem offset_beyond_end_witness :
    (getNameAndInfoOfContainers sampleRubyDate sampleFive 100 PortInfo =
      getNameAndInfoOfContainers sampleRubyDate sampleFive (sampleFive.length - 1) PortInfo ∧
    ∀ r ∈ sampleFive.map Prod.snd,
      (∀ r' ∈ sampleFive.map Prod.snd,
        r'.State.StartedAt.Before r.State.StartedAt = false) →
      12 ≤ r.ID.length →
      getNameAndInfoOfContainers sampleRubyDate sampleFive 100 PortInfo =
        .ok ⟨[str "(1) " ++ r.ID.take 12 ++ str " " ++ strings.TrimLeft r.Name (str "/")],
          [(infoValue sampleRubyDate PortInfo r).getD []],
          logRows sampleRubyDate PortInfo [r]⟩) ∧
    getNameAndInfoOfContainers sampleRubyDate sampleFive 100 PortInfo =
      .ok ⟨[str "(1) aaaaaaaaaaaa a"], [str "80->1.2.3.4:8080,80->0.0.0.0:8081"], []⟩ ∧
    getNameAndInfoOfContainers sampleRubyDate sampleFive 4 PortInfo =
      .ok ⟨[str "(1) aaaaaaaaaaaa a"], [str "80->1.2.3.4:8080,80->0.0.0.0:8081"], []⟩ :=
  ⟨offset_beyond_end sampleRubyDate sampleFive 100 PortInfo (by decide) (by decide)
      (by decide) (by decide),
   by decide, by decide⟩

/-- C5 fails as stated. One container whose ID has five bytes: offset 100 and offset
`N - 1 = 0` both stop at `ID[:12]` with a slice bound out of range, so neither gives a
window. -/
theorem offset_beyond_end_counterexample :
    sampleShort ≠ [] ∧ (sampleShort.length : Int) < 100 ∧
    getNameAndInfoOfContainers sampleRubyDate sampleShort 100 ImageInfo =
      .error .sliceBounds ∧
    getNameAndInfoOfContainers sampleRubyDate sampleShort (sampleShort.length - 1) ImageInfo =
      .error .sliceBounds := by
  refine ⟨?_, ?_, ?_, ?_⟩ <;> decide

/-! ## `strings.TrimRight` and `strings.Join` -/

theorem contains_comma (b : UInt8) : (str ",").contains b = (b == comma) := by
  have h : str "," = [comma] := by decide
  rw [h]
  simp only [List.contains, List.elem]
  cases b == comma <;> rfl

theorem trimRight_append_comma (s : GoString) :
    strings.TrimRight (s ++ str ",") (str ",") = strings.TrimRight s (str ",") := by
  have h : str "," = [comma] := by decide
  unfold strings.TrimRight
  rw [h]
  simp [List.dropWhile_cons]

theorem trimRight_eq_self (s : GoString) (h : s.getLast? ≠ some comma) :
    strings.TrimRight s (str ",") = s := by
  unfold strings.TrimRight
  rw [← List.head?_reverse] at h
  cases hr : s.reverse with
  | nil =>
    simp only [List.dropWhile_nil, List.reverse_nil]
    exact (List.reverse_eq_nil_iff.mp hr).symm
  | cons b t =>
    rw [hr] at h
    have hb : b ≠ comma := by
      intro hb
      apply h
      simp [hb]
    have hc : (str ",").contains b = false := by
      rw [contains_comma]
      simpa using hb
    rw [List.dropWhile_cons, hc]
    simp only [Bool.false_eq_true, if_false]
    rw [← hr, List.reverse_reverse]

theorem join_concat (xs : List GoString) (a sep : GoString) (h : xs ≠ []) :
    strings.Join (xs ++ [a]) sep = strings.Join xs sep ++ sep ++ a := by
  induction xs with
  | nil => exact absurd rfl h
  | cons x xs ih =>
    cases xs with
    | nil => simp [strings.Join]
    | cons y ys =>
      have := ih (by simp)
      simp only [List.cons_append] at this ⊢
      simp only [strings.Join]
      rw [this]
      simp [List.append_assoc]

theorem foldl_tokens (p : Port) (bs : List PortBinding) (acc : GoString) :
    bs.foldl
      (fun acc extHostPort =>
        acc ++ (Port.Port p ++ str "->" ++ extHostPort.HostIP ++ str ":"
          ++ extHostPort.HostPort ++ str ",")) acc =
      acc ++ (bs.map (fun b => portToken p b ++ str ",")).flatten := by
  induction bs generalizing acc with
  | nil => simp
  | cons b bs ih =>
    simp only [List.foldl_cons, List.map_cons, List.flatten_cons]
    rw [ih]
    simp [portToken, List.append_assoc]

theorem join_tokens (p : Port) (bs : List PortBinding) (h : bs ≠ []) :
    (bs.map (fun b => portToken p b ++ str ",")).flatten =
      strings.Join (bs.map (portToken p)) (str ",") ++ str "," := by
  induction bs with
  | nil => exact absurd rfl h
  | cons b bs ih =>
    cases bs with
    | nil => simp [strings.Join]
    | cons b2 bs =>
      have := ih (by simp)
      simp only [List.map_cons, List.flatten_cons] at this ⊢
      rw [this]
      simp [strings.Join, List.append_assoc]

theorem createPortsString_one (p : Port) (bs : List PortBinding) (h : bs ≠ []) :
    createPortsString [(p, bs)] =
      strings.TrimRight (strings.Join (bs.map (portToken p)) (str ",")) (str ",") := by
  unfold createPortsString
  have hl : bs.length ≠ 0 := fun h0 => h (List.length_eq_zero.mp h0)
  simp only [List.foldl_cons, List.foldl_nil, hl, if_false]
  rw [foldl_tokens, List.nil_append, join_tokens p bs h, trimRight_append_comma]

theorem join_tokens_last (p : Port) (bs : List PortBinding) (b : PortBinding)
    (hb : bs.getLast? = some b) (hp : b.HostPort.getLast? ≠ some comma) :
    (strings.Join (bs.map (portToken p)) (str ",")).getLast? ≠ some comma := by
  obtain ⟨init, hinit⟩ := List.getLast?_eq_some_iff.mp hb
  have htok : (portToken p b).getLast? ≠ some comma := by
    unfold portToken
    rw [List.getLast?_append]
    cases hq : b.HostPort.getLast? with
    | none =>
      simp only [Option.none_or]
      rw [List.getLast?_append]
      have h58 : (str ":").getLast? = some (UInt8.ofNat 58) := by decide
      rw [h58]
      simp [Option.or]
      decide
    | some c =>
      rw [hq] at hp
      simpa using hp
  rw [hinit, List.map_append, List.map_singleton]
  cases hi : init with
  | nil => simpa [strings.Join] using htok
  | cons i is =>
    rw [join_concat _ _ _ (by simp), List.getLast?_append]
    cases hq : (portToken p b).getLast? with
    | none =>
      exfalso
      have : portToken p b ≠ [] := by
        unfold portToken
        have : str ":" ≠ [] := by decide
        simp [this]
      exact this (List.getLast?_eq_none_iff.mp hq)
    | some c =>
      rw [hq] at htok
      simpa using htok

/-! ## C6: the `Ports` column for one port -/

/-- C6, as the code has it. For a port map holding the single internal port `p`,
`createPortsString` returns `"<p>->N/A"` when `p` has no bindings; otherwise it returns the
tokens `"<p>->HOST_IP:HOST_PORT"`, one per binding in binding order, joined with `,`, with
the trailing `,` bytes of that string removed; the result is exactly the joined tokens when
the `HostPort` of the last binding does not end in `,`. -/
theorem createPortsString_single (p : Port) (bs : List PortBinding) :
    (bs = [] → createPortsString [(p, bs)] = Port.Port p ++ str "->N/A") ∧
    (bs ≠ [] → createPortsString [(p, bs)] =
      strings.TrimRight (strings.Join (bs.map (portToken p)) (str ",")) (str ",")) ∧
    (∀ b, bs.getLast? = some b → b.HostPort.getLast? ≠ some comma →
      createPortsString [(p, bs)] = strings.Join (bs.map (portToken p)) (str ",")) := by
  refine ⟨?_, createPortsString_one p bs, ?_⟩
  · intro h
    rw [h]
    unfold createPortsString
    simp only [List.foldl_cons, List.foldl_nil, List.length_nil, if_true, List.nil_append]
    have h1 : Port.Port p ++ str "->N/A," = (Port.Port p ++ str "->N/A") ++ str "," := by
      rw [List.append_assoc]
      rfl
    rw [h1, trimRight_append_comma, trimRight_eq_self]
    rw [List.getLast?_append]
    have h65 : (str "->N/A").getLast? = some (UInt8.ofNat 65) := by decide
    rw [h65]
    simp [Option.or]
    decide
  · intro b hb hp
    have hne : bs ≠ [] := by
      intro h
      rw [h] at hb
      simp at hb
    rw [createPortsString_one p bs hne, trimRight_eq_self _ (join_tokens_last p bs b hb hp)]

theorem createPortsString_single_witness :
    createPortsString [(str "80/tcp", [])] = str "80->N/A" ∧
    createPortsString [(str "80/tcp", [⟨str "1.2.3.4", str "8080"⟩, ⟨str "0.0.0.0", str "8081"⟩])] =
      str "80->1.2.3.4:8080,80->0.0.0.0:8081" :=
  ⟨((createPortsString_single (str "80/tcp") []).1 rfl).trans (by decide),
   ((createPortsString_single (str "80/tcp")
      [⟨str "1.2.3.4", str "8080"⟩, ⟨str "0.0.0.0", str "8081"⟩]).2.2
        ⟨str "0.0.0.0", str "8081"⟩ (by decide) (by decide)).trans (by decide)⟩

/-- C6 fails as stated. When the `HostPort` of the last binding ends in `,`, the result is
not the joined tokens: the trailing comma of the token itself is removed. -/
theorem createPortsString_counterexample :
    createPortsString [(str "80/tcp", [⟨str "0.0.0.0", str "8081,"⟩])] = str "80->0.0.0.0:8081" ∧
    createPortsString [(str "80/tcp", [⟨str "0.0.0.0", str "8081,"⟩])] ≠
      strings.Join ([⟨str "0.0.0.0", str "8081,"⟩].map (portToken (str "80/tcp"))) (str ",") := by
  constructor <;> decide

/-! ## C7: the `Envs` and `Mounts` columns -/

theorem infoRows_getElem? (rubyDate : Time → GoString) (k : DockerInfoType)
    (cs : List Container) (j : Nat) :
    (infoRows rubyDate k cs)[j]? = cs[j]?.map (fun c => (infoValue rubyDate k c).getD []) := by
  simp [infoRows]

theorem info_rows (rubyDate : Time → GoString) (m : List (GoString × Container))
    (c : Int) (k : DockerInfoType) (hmax : (m.length : Int) ≤ maxInt)
    (hid : ∀ e ∈ m, 12 ≤ e.2.ID.length) (hc0 : 0 ≤ c) (hcN : c ≤ m.length) :
    ∃ rows, getNameAndInfoOfContainers rubyDate m c k = .ok rows ∧
      ∀ (j : Nat) (r : Container), (mapValuesSorted m)[c.toNat + j]? = some r →
        rows.info[j]? = some ((infoValue rubyDate k r).getD []) := by
  have hcl := getNameAndInfo_closed rubyDate m c k hmax (by omega) (ids_of_drop m _ hid)
  rw [clampOffset_of_le _ _ hcN] at hcl
  have hz : (-c).toNat = 0 := by omega
  rw [hz] at hcl
  simp only [List.replicate_zero, List.nil_append] at hcl
  refine ⟨_, hcl, ?_⟩
  intro j r hr
  simp only [infoRows_getElem?, List.getElem?_drop, hr, Option.map_some']

/-- C7, as the code has it. For a snapshot whose IDs have at least 12 bytes and an offset
`c` with `0 ≤ c ≤ N`, the `Envs` value of the record of rank `c + j` is its environment
assignments joined with `,` with the trailing `,` bytes of that string removed, and the
`Mounts` value is its bind-mount specifications joined with `,` with the trailing `,`
bytes removed; each is exactly the joined string when that string does not end in `,`. -/
theorem env_and_mounts (rubyDate : Time → GoString) (m : List (GoString × Container))
    (c : Int) (hmax : (m.length : Int) ≤ maxInt)
    (hid : ∀ e ∈ m, 12 ≤ e.2.ID.length) (hc0 : 0 ≤ c) (hcN : c ≤ m.length) :
    ∃ envRows bindRows,
      getNameAndInfoOfContainers rubyDate m c EnvInfo = .ok envRows ∧
      getNameAndInfoOfContainers rubyDate m c BindInfo = .ok bindRows ∧
      ∀ (j : Nat) (r : Container), (mapValuesSorted m)[c.toNat + j]? = some r →
        envRows.info[j]? =
          some (strings.TrimRight (strings.Join r.Config.Env (str ",")) (str ",")) ∧
        ((strings.Join r.Config.Env (str ",")).getLast? ≠ some comma →
          envRows.info[j]? = some (strings.Join r.Config.Env (str ","))) ∧
        bindRows.info[j]? =
          some (strings.TrimRight (strings.Join r.HostConfig.Binds (str ",")) (str ",")) ∧
        ((strings.Join r.HostConfig.Binds (str ",")).getLast? ≠ some comma →
          bindRows.info[j]? = some (strings.Join r.HostConfig.Binds (str ","))) := by
  obtain ⟨envRows, he, henv⟩ := info_rows rubyDate m c EnvInfo hmax hid hc0 hcN
  obtain ⟨bindRows, hb, hbind⟩ := info_rows rubyDate m c BindInfo hmax hid hc0 hcN
  refine ⟨envRows, bindRows, he, hb, ?_⟩
  intro j r hr
  have h1 : envRows.info[j]? =
      some (strings.TrimRight (strings.Join r.Config.Env (str ",")) (str ",")) := by
    rw [henv j r hr]
    rfl
  have h2 : bindRows.info[j]? =
      some (strings.TrimRight (strings.Join r.HostConfig.Binds (str ",")) (str ",")) := by
    rw [hbind j r hr]
    rfl
  refine ⟨h1, ?_, h2, ?_⟩
  · intro hl
    rw [h1, trimRight_eq_self _ hl]
  · intro hl
    rw [h2, trimRight_eq_self _ hl]

theorem env_and_mounts_witness :
    ∃ envRows bindRows,
      getNameAndInfoOfContainers sampleRubyDate sampleThree 1 EnvInfo = .ok envRows ∧
      getNameAndInfoOfContainers sampleRubyDate sampleThree 1 BindInfo = .ok bindRows ∧
      ∀ (j : Nat) (r : Container), (mapValuesSorted sampleThree)[(1 : Int).toNat + j]? = some r →
        envRows.info[j]? =
          some (strings.TrimRight (strings.Join r.Config.Env (str ",")) (str ",")) ∧
        ((strings.Join r.Config.Env (str ",")).getLast? ≠ some comma →
          envRows.info[j]? = some (strings.Join r.Config.Env (str ","))) ∧
        bindRows.info[j]? =
          some (strings.TrimRight (strings.Join r.HostConfig.Binds (str ",")) (str ",")) ∧
        ((strings.Join r.HostConfig.Binds (str ",")).getLast? ≠ some comma →
          bindRows.info[j]? = some (strings.Join r.HostConfig.Binds (str ","))) :=
  env_and_mounts sampleRubyDate sampleThree 1 (by decide) (by decide) (by decide) (by decide)

/-- C7 fails as stated. The record of `sampleOne` has the assignments `A=1` and `L=a,b,`;
its `Envs` value is `A=1,L=a,b`, which is not the assignments joined with `,`: the comma
that ends the last assignment is missing. -/
theorem env_and_mounts_counterexample :
    getNameAndInfoOfContainers sampleRubyDate sampleOne 0 EnvInfo =
      .ok ⟨[str "(1) 0123456789ab web"], [str "A=1,L=a,b"], []⟩ ∧
    strings.Join [str "A=1", str "L=a,b,"] (str ",") = str "A=1,L=a,b," ∧
    str "A=1,L=a,b" ≠ strings.Join [str "A=1", str "L=a,b,"] (str ",") := by
  refine ⟨?_, ?_, ?_⟩ <;> decide

/-! ## C8: an info kind outside the enumeration -/

theorem infoValue_unhandled (rubyDate : Time → GoString) (k : Int)
    (hk : k < 0 ∨ 7 < k) (c : Container) : infoValue rubyDate k c = none := by
  unfold infoValue ImageInfo PortInfo BindInfo CommandInfo EnvInfo EntrypointInfo VolumesInfo
    TimeInfo
  have h0 : k ≠ 0 := by omega
  have h1 : k ≠ 1 := by omega
  have h2 : k ≠ 2 := by omega
  have h3 : k ≠ 3 := by omega
  have h4 : k ≠ 4 := by omega
  have h5 : k ≠ 5 := by omega
  have h6 : k ≠ 6 := by omega
  have h7 : k ≠ 7 := by omega
  simp only [h0, h1, h2, h3, h4, h5, h6, h7, if_false]

theorem infoValue_handled (rubyDate : Time → GoString) (k : Int)
    (hk : 0 ≤ k ∧ k ≤ 7) (c : Container) : ∃ v, infoValue rubyDate k c = some v := by
  have : k = 0 ∨ k = 1 ∨ k = 2 ∨ k = 3 ∨ k = 4 ∨ k = 5 ∨ k = 6 ∨ k = 7 := by omega
  rcases this with h | h | h | h | h | h | h | h <;> subst h <;>
    simp [infoValue, ImageInfo, PortInfo, BindInfo, CommandInfo, EnvInfo,
      EntrypointInfo, VolumesInfo, TimeInfo]

/-- The loop run with an unhandled kind `k` and with a handled kind `h`, from states with
the same names: both stop with the same panic, or both finish with the same names, and the
unhandled run has left the info column as it was. -/
theorem rangeLoop_unhandled (rubyDate : Time → GoString) (N offset : Int)
    (k h : Int) (hk : k < 0 ∨ 7 < k) (hh : 0 ≤ h ∧ h ≤ 7)
    (rest : List Container) (index : Nat) (st st1 : Rows)
    (hn : st.names = st1.names) (hl : st1.info.length = st1.names.length) :
    (∃ e, rangeLoop rubyDate N offset k rest index st = .error e ∧
        rangeLoop rubyDate N offset h rest index st1 = .error e) ∨
    (∃ r r1, rangeLoop rubyDate N offset k rest index st = .ok r ∧
        rangeLoop rubyDate N offset h rest index st1 = .ok r1 ∧
        r.names = r1.names ∧ r.info = st.info ∧ r.names.length = st.names.length) := by
  induction rest generalizing index st st1 with
  | nil => exact Or.inr ⟨st, st1, rfl, rfl, hn, rfl, rfl⟩
  | cons c cs ih =>
    simp only [rangeLoop, rangeBody]
    by_cases hlt : (index : Int) < offset
    · simp only [hlt, if_true]
      exact ih (index + 1) st st1 hn hl
    · simp only [hlt, if_false]
      cases hs : sliceTo c.ID 12 with
      | error e => exact Or.inl ⟨e, rfl, rfl⟩
      | ok id12 =>
        simp only [← hn]
        cases hset : setIndex st.names (wrapInt (index - offset))
            (nameRow (wrapInt (N - index)) id12 c) with
        | error e => exact Or.inl ⟨e, rfl, rfl⟩
        | ok names =>
          obtain ⟨v, hv⟩ := infoValue_handled rubyDate h hh c
          simp only [infoValue_unhandled rubyDate k hk c, hv]
          have hrange : 0 ≤ wrapInt (index - offset) ∧
              wrapInt (index - offset) < st.names.length := by
            unfold setIndex at hset
            by_contra hcon
            rw [if_neg hcon] at hset
            cases hset
          have hnames : names.length = st.names.length := by
            unfold setIndex at hset
            rw [if_pos hrange] at hset
            cases hset
            simp
          have hset1 : setIndex st1.info (wrapInt (index - offset)) v =
              .ok (st1.info.set (wrapInt (index - offset)).toNat v) := by
            unfold setIndex
            rw [if_pos]
            rw [hl, ← hn]
            exact hrange
          simp only [hset1]
          rcases ih (index + 1) ⟨names, st.info, st.errorLog ++ [k]⟩
            ⟨names, st1.info.set (wrapInt (index - offset)).toNat v, st1.errorLog⟩ rfl
            (by simp [hl, hnames, hn]) with ⟨e, h1, h2⟩ | ⟨r, r1, h1, h2, h3, h4, h5⟩
          · exact Or.inl ⟨e, h1, h2⟩
          · exact Or.inr ⟨r, r1, h1, h2, h3, h4, by simpa [hnames] using h5⟩

/-- C8, as the code has it. For every snapshot, every offset and every info kind `k` outside
`ImageInfo .. TimeInfo`, the call gives the names it gives for a handled kind `h` and stops
exactly where the call for `h` stops (the `default` case adds no failure), and when it
returns, every entry of info is the empty string. For a snapshot whose IDs have at least 12
bytes and an offset `0 ≤ O` it does not fail: both calls return, with the same names, and
every entry of the info of the call for `k` is the empty string. -/
theorem unhandled_kind (rubyDate : Time → GoString) (m : List (GoString × Container))
    (O : Int) (k h : Int) (hk : k < 0 ∨ 7 < k) (hh : 0 ≤ h ∧ h ≤ 7) :
    (getNameAndInfoOfContainers rubyDate m O k).map Rows.names =
      (getNameAndInfoOfContainers rubyDate m O h).map Rows.names ∧
    (∀ rows, getNameAndInfoOfContainers rubyDate m O k = .ok rows →
      rows.info = List.replicate rows.names.length []) ∧
    ((m.length : Int) ≤ maxInt → (∀ e ∈ m, 12 ≤ e.2.ID.length) → 0 ≤ O →
      ∃ rows rowsH, getNameAndInfoOfContainers rubyDate m O k = .ok rows ∧
        getNameAndInfoOfContainers rubyDate m O h = .ok rowsH ∧
        rows.names = rowsH.names ∧
        rows.info = List.replicate rows.names.length []) := by
  have hinfo : ∀ rows, getNameAndInfoOfContainers rubyDate m O k = .ok rows →
      rows.info = List.replicate rows.names.length [] := by
    intro rows hrows
    unfold getNameAndInfoOfContainers at hrows
    simp only [] at hrows
    cases hmk : makeStrings (wrapInt (m.length - clampOffset m.length O)) with
    | error e => rw [hmk] at hrows; cases hrows
    | ok names =>
      rw [hmk] at hrows
      simp only [] at hrows
      have hrep : names = List.replicate names.length [] := by
        unfold makeStrings at hmk
        split at hmk
        · cases hmk
          simp
        · cases hmk
      rcases rangeLoop_unhandled rubyDate m.length (clampOffset m.length O) k ImageInfo hk
        (by decide) (mapValuesSorted m) 0 ⟨names, names, []⟩ ⟨names, names, []⟩ rfl rfl with
        ⟨e, h1, _⟩ | ⟨r, r1, h1, _, _, h4, h5⟩
      · rw [h1] at hrows; cases hrows
      · rw [h1] at hrows
        cases hrows
        rw [h4, h5]
        exact hrep
  refine ⟨?_, hinfo, ?_⟩
  · unfold getNameAndInfoOfContainers
    simp only []
    cases hmk : makeStrings (wrapInt (m.length - clampOffset m.length O)) with
    | error e => rfl
    | ok names =>
      simp only []
      rcases rangeLoop_unhandled rubyDate m.length (clampOffset m.length O) k h hk hh
        (mapValuesSorted m) 0 ⟨names, names, []⟩ ⟨names, names, []⟩ rfl rfl with
        ⟨e, h1, h2⟩ | ⟨r, r1, h1, h2, h3, _, _⟩
      · rw [h1, h2]
      · rw [h1, h2]
        simp only [Except.map, h3]
  · intro hmax hid hO
    have hck := getNameAndInfo_closed rubyDate m O k hmax (by omega) (ids_of_drop m _ hid)
    have hch := getNameAndInfo_closed rubyDate m O h hmax (by omega) (ids_of_drop m _ hid)
    exact ⟨_, _, hck, hch, rfl, hinfo _ hck⟩

theorem unhandled_kind_witness :
    ((getNameAndInfoOfContainers sampleRubyDate sampleThree 1 9).map Rows.names =
      (getNameAndInfoOfContainers sampleRubyDate sampleThree 1 PortInfo).map Rows.names ∧
    (∀ rows, getNameAndInfoOfContainers sampleRubyDate sampleThree 1 9 = .ok rows →
      rows.info = List.replicate rows.names.length []) ∧
    ((sampleThree.length : Int) ≤ maxInt → (∀ e ∈ sampleThree, 12 ≤ e.2.ID.length) →
      (0 : Int) ≤ 1 →
      ∃ rows rowsH, getNameAndInfoOfContainers sampleRubyDate sampleThree 1 9 = .ok rows ∧
        getNameAndInfoOfContainers sampleRubyDate sampleThree 1 PortInfo = .ok rowsH ∧
        rows.names = rowsH.names ∧
        rows.info = List.replicate rows.names.length [])) ∧
    getNameAndInfoOfContainers sampleRubyDate sampleThree 1 9 =
      .ok ⟨[str "(2) cccccccccccc cache", str "(1) aaaaaaaaaaaa my-app"], [[], []], [9, 9]⟩ :=
  ⟨unhandled_kind sampleRubyDate sampleThree 1 9 PortInfo (by decide) (by decide), by decide⟩

/-- C8 fails as stated. One container whose ID has five bytes, offset 0, kind 9: the call
stops at `ID[:12]` with a slice bound out of range. -/
theorem unhandled_kind_counterexample :
    ((9 : Int) < 0 ∨ (7 : Int) < 9) ∧
    getNameAndInfoOfContainers sampleRubyDate sampleShort 0 9 = .error .sliceBounds := by
  refine ⟨?_, ?_⟩ <;> decide

/-! ## C9: the iteration order of the maps -/

theorem rangeLoop_congr (rubyDate : Time → GoString) (N offset : Int) (k : DockerInfoType)
    (l1 l2 : List Container) (h : List.Forall₂ (RowEq rubyDate k) l1 l2)
    (index : Nat) (st : Rows) :
    rangeLoop rubyDate N offset k l1 index st = rangeLoop rubyDate N offset k l2 index st := by
  induction h generalizing index st with
  | nil => rfl
  | cons hab _ ih =>
    obtain ⟨h1, h2, _, h4⟩ := hab
    simp only [rangeLoop, rangeBody, nameRow, h1, h2, h4, ih]

theorem sink_congr (R : Container → Container → Prop)
    (hR : ∀ a b, R a b → a.State = b.State) (x y : Container) (hxy : R x y)
    (l1 l2 : List Container) (h : List.Forall₂ R l1 l2) :
    List.Forall₂ R (sort.sink x l1) (sort.sink y l2) := by
  induction h with
  | nil => exact List.Forall₂.cons hxy List.Forall₂.nil
  | cons hab hrest ih =>
    rename_i a b as bs
    have hl : ContainerSlice.Less x a = ContainerSlice.Less y b := by
      unfold ContainerSlice.Less
      rw [hR x y hxy, hR a b hab]
    unfold sort.sink
    rw [hl]
    split
    · exact List.Forall₂.cons hab ih
    · exact List.Forall₂.cons hxy (List.Forall₂.cons hab hrest)

theorem foldl_sink_congr (R : Container → Container → Prop)
    (hR : ∀ a b, R a b → a.State = b.State) (l1 l2 : List Container)
    (h : List.Forall₂ R l1 l2) (acc1 acc2 : List Container)
    (hacc : List.Forall₂ R acc1 acc2) :
    List.Forall₂ R (l1.foldl (fun sortedRev x => sort.sink x sortedRev) acc1)
      (l2.foldl (fun sortedRev x => sort.sink x sortedRev) acc2) := by
  induction h generalizing acc1 acc2 with
  | nil => exact hacc
  | cons hab _ ih =>
    simp only [List.foldl_cons]
    exact ih _ _ (sink_congr R hR _ _ hab _ _ hacc)

theorem insertionSort_congr (R : Container → Container → Prop)
    (hR : ∀ a b, R a b → a.State = b.State) (l1 l2 : List Container)
    (h : List.Forall₂ R l1 l2) :
    List.Forall₂ R (sort.insertionSort l1) (sort.insertionSort l2) := by
  unfold sort.insertionSort
  rw [List.forall₂_reverse_iff]
  exact foldl_sink_congr R hR l1 l2 h [] [] List.Forall₂.nil

theorem insertionSort_unique (l1 l2 : List Container) (hp : l1.Perm l2)
    (hdist : l1.Pairwise (fun a b => a.State.StartedAt.Equal b.State.StartedAt = false)) :
    sort.insertionSort l1 = sort.insertionSort l2 := by
  haveI : IsAntisymm Container (fun a b => ContainerSlice.Less a b = true) :=
    ⟨fun a b h1 h2 => by
      exfalso
      rw [less_iff] at h1 h2
      omega⟩
  have hsym : ∀ {x y : Container}, x.State.StartedAt.Equal y.State.StartedAt = false →
      y.State.StartedAt.Equal x.State.StartedAt = false := fun h => equal_symm _ _ h
  have hstrict : ∀ l : List Container, l.Perm l1 →
      (sort.insertionSort l).Pairwise (fun a b => ContainerSlice.Less a b = true) := by
    intro l hl
    have hd : (sort.insertionSort l).Pairwise
        (fun a b => a.State.StartedAt.Equal b.State.StartedAt = false) :=
      (((insertionSort_perm l).trans hl).pairwise_iff hsym).mpr hdist
    refine List.Pairwise.imp₂ ?_ (insertionSort_pairwise l) hd
    intro a b h1 h2
    rw [less_false_iff] at h1
    rw [← Bool.not_eq_true, equal_iff] at h2
    rw [less_iff]
    omega
  exact List.eq_of_perm_of_sorted
    (((insertionSort_perm l1).trans hp).trans (insertionSort_perm l2).symm)
    (hstrict l1 (List.Perm.refl _)) (hstrict l2 hp.symm)

theorem perm_short {α : Type} (l1 l2 : List α) (hp : l1.Perm l2) (hl : l1.length ≤ 1) :
    l1 = l2 := by
  match l1, hl with
  | [], _ => exact (List.perm_nil.mp hp.symm).symm
  | [a], _ => exact (List.perm_singleton.mp hp.symm).symm

theorem rowEq_of_sameRecord (rubyDate : Time → GoString) (k : DockerInfoType)
    (a b : Container) (h : SameRecord a b)
    (hports : k = PortInfo → a.NetworkSettings.Ports.length ≤ 1)
    (hvols : k = VolumesInfo → a.Volumes.length ≤ 1) : RowEq rubyDate k a b := by
  obtain ⟨h1, h2, h3, h4, h5, h6, h7, h8, h9⟩ := h
  refine ⟨h1, h2, h6, ?_⟩
  unfold infoValue
  by_cases hk1 : k = PortInfo
  · have := perm_short _ _ h8 (hports hk1)
    simp only [h3, h4, h5, h6, h7, this]
    by_cases hk6 : k = VolumesInfo
    · rw [perm_short _ _ h9 (hvols hk6)]
    · simp only [hk6, if_false]
  · by_cases hk6 : k = VolumesInfo
    · rw [perm_short _ _ h9 (hvols hk6)]
      simp only [h3, h4, h5, h6, h7, hk1, if_false]
    · simp only [h3, h4, h5, h6, h7, hk1, hk6, if_false]

/-- C9, as the code has it. Two readings of one snapshot, in whatever order the registry
map, the port maps and the volume maps are visited, give identical names, info and log for
every offset and kind, provided the start times are pairwise distinct and, for the `Ports`
kind, no record has more than one port and, for the `Volumes` kind, no record has more than
one volume. -/
theorem iteration_order_independent (rubyDate : Time → GoString)
    (m1 m2 : List (GoString × Container)) (O : Int) (k : DockerInfoType)
    (hsame : SameRegistry m1 m2)
    (hdist : (m1.map Prod.snd).Pairwise
      (fun a b => a.State.StartedAt.Equal b.State.StartedAt = false))
    (hports : k = PortInfo → ∀ e ∈ m1, e.2.NetworkSettings.Ports.length ≤ 1)
    (hvols : k = VolumesInfo → ∀ e ∈ m1, e.2.Volumes.length ≤ 1) :
    getNameAndInfoOfContainers rubyDate m1 O k = getNameAndInfoOfContainers rubyDate m2 O k := by
  obtain ⟨m, hperm, hall⟩ := hsame
  have hlen : m1.length = m2.length := hperm.length_eq.trans hall.length_eq
  have hrow : List.Forall₂ (RowEq rubyDate k) (m.map Prod.snd) (m2.map Prod.snd) := by
    rw [List.forall₂_map_left_iff, List.forall₂_map_right_iff]
    have hmem : ∀ e ∈ m, e ∈ m1 := fun e he => hperm.mem_iff.mpr he
    clear hperm hlen
    induction hall with
    | nil => exact List.Forall₂.nil
    | cons hab hrest ih =>
      rename_i e1 e2 es1 es2
      refine List.Forall₂.cons ?_ (ih (fun e he => hmem e (List.mem_cons_of_mem _ he)))
      have he1 := hmem e1 (List.mem_cons_self _ _)
      exact rowEq_of_sameRecord rubyDate k e1.2 e2.2 hab.2
        (fun hk => hports hk e1 he1) (fun hk => hvols hk e1 he1)
  have hsorted : List.Forall₂ (RowEq rubyDate k) (mapValuesSorted m1) (mapValuesSorted m2) := by
    unfold mapValuesSorted
    rw [insertionSort_unique _ _ (hperm.map Prod.snd) hdist]
    exact insertionSort_congr _ (fun a b hab => hab.2.2.1) _ _ hrow
  unfold getNameAndInfoOfContainers
  simp only [hlen]
  cases makeStrings (wrapInt (m2.length - clampOffset m2.length O)) with
  | error e => rfl
  | ok names =>
    simp only []
    exact rangeLoop_congr rubyDate _ _ k _ _ hsorted 0 _

theorem sameRegistry_tie : SameRegistry sampleTie sampleTieSwapped :=
  ⟨sampleTieSwapped, List.Perm.swap _ _ _,
    List.Forall₂.cons ⟨rfl, rfl, rfl, rfl, rfl, rfl, rfl, rfl, List.Perm.refl _, List.Perm.refl _⟩
      (List.Forall₂.cons
        ⟨rfl, rfl, rfl, rfl, rfl, rfl, rfl, rfl, List.Perm.refl _, List.Perm.refl _⟩
        List.Forall₂.nil)⟩

theorem sameRegistry_maps (v1 v2 : GoString × GoString) (p1 p2 : Port × List PortBinding) :
    SameRegistry (sampleMaps [v1, v2] [p1, p2]) (sampleMaps [v2, v1] [p2, p1]) :=
  ⟨sampleMaps [v1, v2] [p1, p2], List.Perm.refl _,
    List.Forall₂.cons
      ⟨rfl, rfl, rfl, rfl, rfl, rfl, rfl, rfl, List.Perm.swap _ _ _, List.Perm.swap _ _ _⟩
      List.Forall₂.nil⟩

theorem sameRegistry_three :
    SameRegistry sampleThree [sampleThree.get ⟨2, by decide⟩, sampleThree.get ⟨0, by decide⟩,
      sampleThree.get ⟨1, by decide⟩] :=
  ⟨[sampleThree.get ⟨2, by decide⟩, sampleThree.get ⟨0, by decide⟩,
      sampleThree.get ⟨1, by decide⟩],
    ((List.Perm.swap _ _ _).cons _).trans (List.Perm.swap _ _ _),
    List.Forall₂.cons
      ⟨rfl, rfl, rfl, rfl, rfl, rfl, rfl, rfl, List.Perm.refl _, List.Perm.refl _⟩
      (List.Forall₂.cons
        ⟨rfl, rfl, rfl, rfl, rfl, rfl, rfl, rfl, List.Perm.refl _, List.Perm.refl _⟩
        (List.Forall₂.cons
          ⟨rfl, rfl, rfl, rfl, rfl, rfl, rfl, rfl, List.Perm.refl _, List.Perm.refl _⟩
          List.Forall₂.nil))⟩

/-- Three containers with distinct start times and one port each give the same `Ports`
window in two visiting orders of the registry; a record with two ports and two volumes,
each map visited in two orders, gives the same `Envs` window. -/
theorem iteration_order_independent_witness :
    getNameAndInfoOfContainers sampleRubyDate sampleThree 1 PortInfo =
      getNameAndInfoOfContainers sampleRubyDate
        [sampleThree.get ⟨2, by decide⟩, sampleThree.get ⟨0, by decide⟩,
          sampleThree.get ⟨1, by decide⟩] 1 PortInfo ∧
    getNameAndInfoOfContainers sampleRubyDate
        (sampleMaps [(str "/a", str "/x"), (str "/b", str "/y")]
          [(str "80/tcp", []), (str "443/tcp", [])])
        0 EnvInfo =
      getNameAndInfoOfContainers sampleRubyDate
        (sampleMaps [(str "/b", str "/y"), (str "/a", str "/x")]
          [(str "443/tcp", []), (str "80/tcp", [])])
        0 EnvInfo :=
  ⟨iteration_order_independent sampleRubyDate _ _ 1 PortInfo sameRegistry_three
      (by decide) (by decide) (by decide),
   iteration_order_independent sampleRubyDate _ _ 0 EnvInfo (sameRegistry_maps _ _ _ _)
      (by decide) (by decide) (by decide)⟩

/-- C9 fails as stated. Two containers started at the same instant come out in the order
in which the registry map was visited; a record with two volumes, or with two ports, is
formatted in the order in which that map was visited. -/
theorem iteration_order_counterexample :
    (SameRegistry sampleTie sampleTieSwapped ∧
      getNameAndInfoOfContainers sampleRubyDate sampleTie 0 ImageInfo ≠
        getNameAndInfoOfContainers sampleRubyDate sampleTieSwapped 0 ImageInfo) ∧
    (SameRegistry
        (sampleMaps [(str "/a", str "/x"), (str "/b", str "/y")] [(str "80/tcp", []), (str "443/tcp", [])])
        (sampleMaps [(str "/b", str "/y"), (str "/a", str "/x")] [(str "443/tcp", []), (str "80/tcp", [])]) ∧
      getNameAndInfoOfContainers sampleRubyDate
          (sampleMaps [(str "/a", str "/x"), (str "/b", str "/y")] [(str "80/tcp", []), (str "443/tcp", [])])
          0 VolumesInfo ≠
        getNameAndInfoOfContainers sampleRubyDate
          (sampleMaps [(str "/b", str "/y"), (str "/a", str "/x")] [(str "443/tcp", []), (str "80/tcp", [])])
          0 VolumesInfo ∧
      getNameAndInfoOfContainers sampleRubyDate
          (sampleMaps [(str "/a", str "/x"), (str "/b", str "/y")] [(str "80/tcp", []), (str "443/tcp", [])])
          0 PortInfo ≠
        getNameAndInfoOfContainers sampleRubyDate
          (sampleMaps [(str "/b", str "/y"), (str "/a", str "/x")] [(str "443/tcp", []), (str "80/tcp", [])])
          0 PortInfo) :=
  ⟨⟨sameRegistry_tie, by decide⟩, ⟨sameRegistry_maps _ _ _ _, by decide, by decide⟩⟩

/-! ## C10: no negative length, no index out of range -/

/-- C10, as the code has it. For a snapshot of `N` containers whose IDs have at least 12
bytes, every info kind and every offset not below `-MaxContainers` (negative, zero, or
larger than `N`; `N - offset` an `int`), the clamped offset is at most `N`, the allocated
length `N - offset` is not negative, every row written has an index `index - offset` with
`0 ≤ index - offset < N - offset`, and the call returns without a panic. -/
theorem no_panic (rubyDate : Time → GoString) (m : List (GoString × Container))
    (O : Int) (k : DockerInfoType) (hmax : (m.length : Int) ≤ maxInt)
    (hid : ∀ e ∈ m, 12 ≤ e.2.ID.length) (_hlow : -MaxContainers ≤ O)
    (hsub : (m.length : Int) - O ≤ maxInt) :
    clampOffset m.length O ≤ m.length ∧
    0 ≤ wrapInt (m.length - clampOffset m.length O) ∧
    (∀ index : Nat, index < m.length → clampOffset m.length O ≤ index →
      0 ≤ wrapInt (index - clampOffset m.length O) ∧
      wrapInt (index - clampOffset m.length O) <
        wrapInt (m.length - clampOffset m.length O)) ∧
    ∃ rows, getNameAndInfoOfContainers rubyDate m O k = .ok rows := by
  have h0 : (0 : Int) ≤ m.length := Int.ofNat_nonneg _
  have hle := clampOffset_le m.length O h0 hmax
  have hsub1 := clampOffset_sub_le m.length O h0 hmax hsub
  have hw : wrapInt ((m.length : Int) - clampOffset m.length O) =
      m.length - clampOffset m.length O := by
    apply wrapInt_eq
    · unfold minInt; omega
    · exact hsub1
  refine ⟨hle, ?_, ?_, _, getNameAndInfo_closed rubyDate m O k hmax hsub (ids_of_drop m _ hid)⟩
  · rw [hw]; omega
  · intro index hi hci
    have hw2 : wrapInt ((index : Int) - clampOffset m.length O) =
        index - clampOffset m.length O := by
      apply wrapInt_eq
      · unfold minInt; omega
      · omega
    rw [hw, hw2]
    omega

theorem no_panic_witness :
    clampOffset sampleThree.length (-2) ≤ sampleThree.length ∧
    0 ≤ wrapInt (sampleThree.length - clampOffset sampleThree.length (-2)) ∧
    (∀ index : Nat, index < sampleThree.length → clampOffset sampleThree.length (-2) ≤ index →
      0 ≤ wrapInt (index - clampOffset sampleThree.length (-2)) ∧
      wrapInt (index - clampOffset sampleThree.length (-2)) <
        wrapInt (sampleThree.length - clampOffset sampleThree.length (-2))) ∧
    ∃ rows, getNameAndInfoOfContainers sampleRubyDate sampleThree (-2) TimeInfo = .ok rows :=
  no_panic sampleRubyDate sampleThree (-2) TimeInfo (by decide) (by decide) (by decide)
    (by decide)

/-- C10 fails as stated. At the smallest `int` the subtraction `numContainers - offset`
overflows to a negative length and `make` panics. -/
theorem no_panic_counterexample :
    wrapInt (sampleOne.length - clampOffset sampleOne.length minInt) < 0 ∧
    getNameAndInfoOfContainers sampleRubyDate sampleOne minInt ImageInfo =
      .error .makesliceLen := by
  constructor <;> decide

end Dockdash
